import Mathlib

/-!
Shallow embedding of the tako core (version algebra, base64 and hex codecs,
manifest parser and serializer, fetch orchestration fragments), together with
theorems settling the specification claims.

Modeling conventions:
* Rust byte slices and strings are modeled as `List Nat` of byte values
  (every byte value 0..255; string literals are converted with `ascii`).
  Lexicographic comparison of UTF-8 strings by bytes agrees with comparison
  by code points, so nothing is lost by working with byte lists.
* Rust panics (out-of-bounds slicing, `unwrap` on `Err`) are modeled as `none`
  of an `Option`-wrapped result.
* Fallible Rust functions returning `Result` are modeled with `Except`.
* The Ed25519 library (an external crate, not part of this repository) is
  modeled as an abstract signature scheme `SigScheme` with the RFC 8032
  properties the spec relies on (deterministic 64-byte signatures that verify
  under the paired public key).
* Filesystem state touched by the fetch path is modeled explicitly: the stored
  manifest file is an `Option (List Nat)`, the `latest` symlink an
  `Option (List Nat)` holding its target path.
-/

namespace Tako

/-- Byte values of an ASCII/UTF-8 string literal, used to state concrete inputs. -/
def ascii (s : String) : List Nat := s.data.map Char.toNat

/-- Decidable equality for Except results, so that concrete runs of the
embedded functions can be checked by decide. -/
instance {ε α : Type} [DecidableEq ε] [DecidableEq α] : DecidableEq (Except ε α) := fun x y =>
  match x, y with
  | Except.error a, Except.error b => decidable_of_iff (a = b) (by simp)
  | Except.ok a, Except.ok b => decidable_of_iff (a = b) (by simp)
  | Except.error _, Except.ok _ => isFalse (by simp)
  | Except.ok _, Except.error _ => isFalse (by simp)

/-! ## format.rs: base64 codec -/

/-- Base64 alphabet table of format.rs, as byte values. -/
def BASE64_CHARS : List Nat :=
  ascii "ABCDEFGHIJKLMNOPQRSTUVWXYZabcdefghijklmnopqrstuvwxyz0123456789+/"

/-- Indexing into the alphabet table (in the source the index is always < 64). -/
def b64char (i : Nat) : Nat := BASE64_CHARS.getD i 0

/-- Embedding of format.rs append_base64: encode bytes three at a time; the
final chunk of one or two bytes is padded with 61 (the byte of the pad char).
The bit operations of the source are rendered arithmetically:
t0 >> 2 is t0 / 4, (t0 & 3) << 4 | t1 >> 4 is t0 % 4 * 16 + t1 / 16,
(t1 & 15) << 2 | t2 >> 6 is t1 % 16 * 4 + t2 / 64, t2 & 63 is t2 % 64. -/
def append_base64 : List Nat → List Nat
  | [] => []
  | [t0] => [b64char (t0 / 4), b64char (t0 % 4 * 16), 61, 61]
  | [t0, t1] => [b64char (t0 / 4), b64char (t0 % 4 * 16 + t1 / 16), b64char (t1 % 16 * 4), 61]
  | t0 :: t1 :: t2 :: rest =>
      b64char (t0 / 4) :: b64char (t0 % 4 * 16 + t1 / 16) ::
      b64char (t1 % 16 * 4 + t2 / 64) :: b64char (t2 % 64) :: append_base64 rest

/-- Embedding of format.rs encode_base64 (append_base64 into a fresh string). -/
def encode_base64 (bytes : List Nat) : List Nat := append_base64 bytes

/-- Embedding of format.rs decode_base64_char. -/
def decode_base64_char (ch : Nat) : Option Nat :=
  if 65 ≤ ch ∧ ch ≤ 90 then some (ch - 65)
  else if 97 ≤ ch ∧ ch ≤ 122 then some (26 + (ch - 97))
  else if 48 ≤ ch ∧ ch ≤ 57 then some (52 + (ch - 48))
  else if ch = 43 then some 62
  else if ch = 47 then some 63
  else none

/-- Embedding of the quartet loop of format.rs decode_base64. The source
accepts the pad byte 61 only when the output produced so far has the length
that identifies the current quartet as the last one; over exact quartets this
is equivalent to the rest of the input being empty.
b0 << 2 | b1 >> 4 is b0 * 4 + b1 / 16, (b1 & 15) << 4 | b2 >> 2 is
b1 % 16 * 16 + b2 / 4, (b2 & 3) << 6 | b3 is b2 % 4 * 64 + b3. -/
def decodeQuartets : List Nat → Option (List Nat)
  | [] => some []
  | c0 :: c1 :: c2 :: c3 :: rest =>
    match decode_base64_char c0, decode_base64_char c1 with
    | some b0, some b1 =>
      if c2 = 61 ∧ c3 = 61 ∧ rest = [] then
        some [b0 * 4 + b1 / 16]
      else
        match decode_base64_char c2 with
        | some b2 =>
          if c3 = 61 ∧ rest = [] then
            some [b0 * 4 + b1 / 16, b1 % 16 * 16 + b2 / 4]
          else
            match decode_base64_char c3, decodeQuartets rest with
            | some b3, some tail =>
                some ((b0 * 4 + b1 / 16) :: (b1 % 16 * 16 + b2 / 4) :: (b2 % 4 * 64 + b3) :: tail)
            | _, _ => none
        | none => none
    | _, _ => none
  | _ => none

/-- Embedding of format.rs decode_base64: length must be a multiple of four,
then the input is processed in quartets. -/
def decode_base64 (b64 : List Nat) : Option (List Nat) :=
  if b64.length % 4 ≠ 0 then none else decodeQuartets b64

/-! ## util.rs: hex formatting -/

/-- Hex digit table of util.rs, as byte values. -/
def HEX_CHARS : List Nat := ascii "0123456789abcdef"

/-- Indexing into the hex table (in the source the index is always < 16). -/
def hexDigit (i : Nat) : Nat := HEX_CHARS.getD i 0

/-- Embedding of util.rs append_hex: two lowercase hex characters per byte,
high nibble first (b >> 4 is b / 16, b & 15 is b % 16). -/
def append_hex (bytes : List Nat) : List Nat :=
  (bytes.map (fun b => [hexDigit (b / 16), hexDigit (b % 16)])).flatten

/-! ## Decimal formatting and parsing helpers (std u64 Display / from_str_radix) -/

/-- Decimal digits with an explicit fuel argument (structural recursion, so
that concrete values reduce inside the kernel); the fuel never runs out when
it starts at the number itself. -/
def decDigitsAux : Nat → Nat → List Nat
  | 0, n => [48 + n]
  | fuel + 1, n => if n < 10 then [48 + n] else decDigitsAux fuel (n / 10) ++ [48 + n % 10]

/-- Decimal digits of a number, most significant first, as ASCII bytes.
Models the std library Display of u64 used by the manifest serializer. -/
def decDigits (n : Nat) : List Nat := decDigitsAux n n

/-- Decimal digit test on a byte. -/
def isDigit (b : Nat) : Bool := 48 ≤ b && b ≤ 57

/-- Accumulate decimal digit bytes into a number. -/
def natFromDigits (ds : List Nat) : Nat := ds.foldl (fun acc d => acc * 10 + (d - 48)) 0

/-- Model of u64::from_str_radix(s, 10): an optional leading plus sign, then at
least one decimal digit; values that do not fit in 64 bits are an overflow
error. -/
def parseU64 (bs : List Nat) : Option Nat :=
  let ds := match bs with
    | b :: rest => if b = 43 then rest else bs
    | [] => bs
  if ds = [] then none
  else if ds.all isDigit then
    let n := natFromDigits ds
    if n < 2 ^ 64 then some n else none
  else none

/-! ## version.rs: version parsing and ordering -/

/-- Embedding of version.rs Part. The source stores string parts as index
pairs into the version string; here the substring bytes are stored directly,
which is what every use of a string part resolves to. -/
inductive Part where
  | num (n : Nat)
  | str (s : List Nat)
  | min
  | max
  deriving DecidableEq, Repr

/-- Embedding of version.rs Version: the original byte string plus the parsed
parts. -/
structure Version where
  string : List Nat
  parts : List Part
  deriving DecidableEq, Repr

/-- Generic splitting of a byte list at separator bytes, mirroring the
chunking performed by the parsing loops in the source (slice::split and the
manual loop of Version::new): a separator ends the current chunk and is not
stored; the trailing chunk is always emitted, so the result is never empty. -/
def splitByP (p : Nat → Bool) : List Nat → List (List Nat)
  | [] => [[]]
  | b :: rest =>
    if p b then [] :: splitByP p rest
    else match splitByP p rest with
      | s :: ss => (b :: s) :: ss
      | [] => [[b]]

/-- Version separators of Version::new: the bytes of the period, hyphen and
underscore characters. -/
def isSepByte (b : Nat) : Bool := b = 46 || b = 45 || b = 95

/-- Embedding of Version::push for one chunk. Empty chunks are skipped
(result some none). An all-digits chunk becomes a numeric part via
u64::from_str followed by unwrap; a value that does not fit in 64 bits makes
from_str fail, so the unwrap panics, modeled as the outer none. -/
def Version.partOfChunk (chunk : List Nat) : Option (Option Part) :=
  if chunk = [] then some none
  else if chunk.all isDigit then
    let n := natFromDigits chunk
    if n < 2 ^ 64 then some (some (Part.num n)) else none
  else some (some (Part.str chunk))

/-- Push every chunk in order, propagating the panic of Version::push. -/
def Version.partsOfChunks : List (List Nat) → Option (List Part)
  | [] => some []
  | c :: cs =>
    match Version.partOfChunk c, Version.partsOfChunks cs with
    | some p?, some rest =>
      some (match p? with
        | some p => p :: rest
        | none => rest)
    | _, _ => none

/-- Embedding of Version::new: split the string at separators and push each
chunk. none models the overflow panic inside Version::push. -/
def Version.new? (s : List Nat) : Option Version :=
  (Version.partsOfChunks (splitByP isSepByte s)).map (fun ps => ⟨s, ps⟩)

/-- Lexicographic byte comparison of the stored substrings, the comparison
std uses for str (a strict prefix is smaller). -/
def lexCmp : List Nat → List Nat → Ordering
  | [], [] => .eq
  | [], _ :: _ => .lt
  | _ :: _, [] => .gt
  | a :: as, b :: bs => match compare a b with
    | .eq => lexCmp as bs
    | o => o

/-- Pairwise part comparison from the match arms of Ord for Version, in
source order: string parts sort before numeric parts, numbers numerically,
strings lexicographically, Min below and Max above everything else. -/
def partCmp : Part → Part → Ordering
  | .num _, .str _ => .gt
  | .str _, .num _ => .lt
  | .num x, .num y => compare x y
  | .str a, .str b => lexCmp a b
  | .min, .min => .eq
  | _, .min => .gt
  | .min, _ => .lt
  | .max, .max => .eq
  | _, .max => .lt
  | .max, _ => .gt

/-- Comparison loop against an exhausted left side: every remaining right
part is compared with the Num(0) padding. Split out of cmpParts so that both
functions are structurally recursive (and hence reduce inside the kernel). -/
def cmpNilParts : List Part → Ordering
  | [] => .eq
  | q :: qs => match partCmp (Part.num 0) q with
    | .eq => cmpNilParts qs
    | o => o

/-- Embedding of the comparison loop of Ord for Version: the shorter part
sequence is zero-padded on the right with Num(0) (parts_zero_padded), then
parts are compared pairwise until a difference is found. -/
def cmpParts : List Part → List Part → Ordering
  | [], qs => cmpNilParts qs
  | p :: ps, [] => match partCmp p (Part.num 0) with
    | .eq => cmpParts ps []
    | o => o
  | p :: ps, q :: qs => match partCmp p q with
    | .eq => cmpParts ps qs
    | o => o

/-- Pairwise part equality from the match arms of PartialEq for Version. -/
def partEqB : Part → Part → Bool
  | .num x, .num y => x == y
  | .str a, .str b => a == b
  | .min, .min => true
  | .max, .max => true
  | _, _ => false

/-- Equality loop against an exhausted left side (structural counterpart of
cmpNilParts). -/
def eqNilParts : List Part → Bool
  | [] => true
  | q :: qs => partEqB (Part.num 0) q && eqNilParts qs

/-- Embedding of the loop of PartialEq for Version, over the same
zero-padded part sequences as the comparison loop. -/
def eqParts : List Part → List Part → Bool
  | [], qs => eqNilParts qs
  | p :: ps, [] => partEqB p (Part.num 0) && eqParts ps []
  | p :: ps, q :: qs => partEqB p q && eqParts ps qs

/-- Embedding of Ord::cmp for Version. -/
def Version.cmp (a b : Version) : Ordering := cmpParts a.parts b.parts

/-- Embedding of PartialEq::eq for Version (semantic equality). -/
def Version.eqB (a b : Version) : Bool := eqParts a.parts b.parts

/-- Embedding of the derived le of Ord for Version: cmp is not Greater. -/
def Version.le (a b : Version) : Bool := (Version.cmp a b).isLE

/-- Embedding of Version::pattern_to_bounds: when the last part is the string
part of a single asterisk, replace it by Min for the lower bound and Max for
the upper bound; otherwise both bounds are the version itself. -/
def Version.pattern_to_bounds (v : Version) : Version × Version :=
  let is_wildcard : Bool := match v.parts.getLast? with
    | some (Part.str p) => p == ascii "*"
    | _ => false
  if is_wildcard then
    (⟨v.string, v.parts.dropLast ++ [Part.min]⟩, ⟨v.string, v.parts.dropLast ++ [Part.max]⟩)
  else (v, v)

/-! ## Errors (error.rs, restricted to the variants the embedded code uses) -/

/-- Embedding of the error enum. invalidSecretKeyMark stands for the variant
signalling a missing secret-key marker string, invalidManifest and
operationError carry their static message. -/
inductive Error where
  | invalidSecretKeyMark
  | invalidSecretKeyData
  | invalidManifest (msg : String)
  | invalidSignatureData
  | invalidSignature
  | invalidDigest
  | invalidSize
  | operationError (msg : String)
  | noCandidate
  | duplicate (v : Version)
  deriving DecidableEq, Repr

/-! ## Signature scheme abstraction

The Ed25519 library is an external crate. It is modeled as an abstract
scheme with exactly the RFC 8032 facts the code relies on: signatures are
64 bytes, and a signature produced with a secret key verifies under the
paired public key. Keys, messages and signatures are byte lists. -/

structure SigScheme where
  sign : List Nat → List Nat → List Nat
  verify : List Nat → List Nat → List Nat → Bool
  Paired : List Nat → List Nat → Prop
  sign_length : ∀ sk msg, (sign sk msg).length = 64
  sign_bytes : ∀ sk msg, ∀ b ∈ sign sk msg, b < 256
  verify_sign : ∀ sk pk msg, Paired sk pk → verify pk msg (sign sk msg) = true

/-! ## manifest.rs: data model -/

/-- Embedding of manifest.rs Entry: a version, a file size and a 32-byte
SHA-256 digest (modeled as a byte list). -/
structure Entry where
  version : Version
  len : Nat
  digest : List Nat
  deriving DecidableEq, Repr

/-- Derived PartialEq for Entry: fieldwise, with the semantic equality of
Version for the version field. -/
def Entry.eqB (a b : Entry) : Bool :=
  Version.eqB a.version b.version && a.len == b.len && a.digest == b.digest

/-- Embedding of manifest.rs Manifest. -/
structure Manifest where
  entries : List Entry
  deriving DecidableEq, Repr

/-! ## manifest.rs: parser -/

/-- Embedding of parse_header. -/
def parse_header (header : List Nat) : Except Error Nat :=
  if header = ascii "Tako Manifest 1" then Except.ok 1
  else if (ascii "Tako Manifest").isPrefixOf header then
    Except.error (Error.invalidManifest "Manifest version is not supported.")
  else
    Except.error (Error.invalidManifest "Manifest does not contain expected Tako Manifest 1 header.")

/-- Embedding of parse_hex: one lowercase hex character to its value. -/
def parse_hex (ch : Nat) : Option Nat :=
  if ch < 48 then none
  else if 102 < ch then none
  else if ch ≤ 57 then some (ch - 48)
  else if 97 ≤ ch then some (ch - 97 + 10)
  else none

/-- Embedding of the digest loop of parse_entry: consume hex characters two
at a time into bytes ((high << 4) + low is high * 16 + low). The input always
has even length 64 at the call site. -/
def parseHexPairs : List Nat → Option (List Nat)
  | [] => some []
  | hi :: lo :: rest =>
    match parse_hex hi, parse_hex lo, parseHexPairs rest with
    | some h, some l, some tail => some ((h * 16 + l) :: tail)
    | _, _, _ => none
  | _ => none

/-- Embedding of parse_entry, with the checks in source order. The UTF-8
validations of the source never fail in the byte-list model (and the one on
the file size shares its message with the decimal parse). The final
Version::new call can panic on a 64-bit overflow, modeled as none. -/
def parse_entry (line : List Nat) : Option (Except Error Entry) :=
  match splitByP (· == 32) line with
  | [] => none
  | version_bytes :: fields =>
    match fields with
    | [] =>
      some (Except.error (Error.invalidManifest
        "Invalid manifest entry, expected a space after version number."))
    | len_bytes :: fields2 =>
      match parseU64 len_bytes with
      | none =>
        some (Except.error (Error.invalidManifest
          "Invalid manifest entry, file size is not a decimal number."))
      | some len =>
        match fields2 with
        | [] =>
          some (Except.error (Error.invalidManifest
            "Invalid manifest entry, expected a space after file size."))
        | sha256_hex :: fields3 =>
          if fields3 ≠ [] then
            some (Except.error (Error.invalidManifest
              "Invalid manifest entry, unexpected space after digest."))
          else if sha256_hex.length ≠ 64 then
            some (Except.error (Error.invalidManifest
              "Entry hash is not 32 bytes (64 hexadecimal characters)."))
          else
            match parseHexPairs sha256_hex with
            | none =>
              some (Except.error (Error.invalidManifest
                "Invalid entry hash. Must be lowercase hexadecimal."))
            | some digest =>
              match Version.new? version_bytes with
              | none => none
              | some version => some (Except.ok ⟨version, len, digest⟩)

/-- Embedding of parse_signature. -/
def parse_signature (sig : List Nat) : Except Error (List Nat) :=
  match decode_base64 sig with
  | none => Except.error Error.invalidSignatureData
  | some bytes =>
    if bytes.length ≠ 64 then
      Except.error (Error.invalidManifest "Ed25519 signature is not 64 bytes (88 characters base64).")
    else Except.ok bytes

/-- Truncation error of Manifest::parse. -/
def errTrunc : Error := Error.invalidManifest "Unexpected end of manifest."

/-- Tail of Manifest::parse after the blank line ending the entries: the
signature line, the expected trailing newline (an empty final chunk), no
further lines, then signature verification over all bytes except the 89-byte
trailer. -/
def Manifest.parseSigTail (S : SigScheme) (bytes public_key : List Nat)
    (entries : List Entry) : List (List Nat) → Option (Except Error Manifest)
  | [] => some (Except.error errTrunc)
  | sig_line :: rest =>
    match parse_signature sig_line with
    | Except.error e => some (Except.error e)
    | Except.ok signature_bytes =>
      match rest with
      | [] => some (Except.error (Error.invalidManifest "Expected newline at end of manifest."))
      | l :: rest2 =>
        if l ≠ [] then
          some (Except.error (Error.invalidManifest "Expected newline at end of manifest."))
        else if rest2 ≠ [] then
          some (Except.error (Error.invalidManifest "Unexpected trailing data after manifest."))
        else
          let message := bytes.take (bytes.length - 89)
          if S.verify public_key message signature_bytes then
            some (Except.ok ⟨entries⟩)
          else
            some (Except.error Error.invalidSignature)

/-- Entry loop of Manifest::parse: one entry per line until a blank line;
running out of lines without a blank line is a truncation error. -/
def Manifest.parseLoop (S : SigScheme) (bytes public_key : List Nat) :
    List (List Nat) → List Entry → Option (Except Error Manifest)
  | [], _ => some (Except.error errTrunc)
  | line :: rest, entries =>
    if line = [] then Manifest.parseSigTail S bytes public_key entries rest
    else
      match parse_entry line with
      | none => none
      | some (Except.error e) => some (Except.error e)
      | some (Except.ok entry) => Manifest.parseLoop S bytes public_key rest (entries ++ [entry])

/-- Embedding of Manifest::parse: split into newline-separated lines (the
iterator always yields at least one chunk, so the header line always exists),
check the header and the blank line, then run the entry loop. -/
def Manifest.parse (S : SigScheme) (bytes public_key : List Nat) :
    Option (Except Error Manifest) :=
  match splitByP (· == 10) bytes with
  | [] => none
  | header :: rest =>
    match parse_header header with
    | Except.error e => some (Except.error e)
    | Except.ok _ =>
      match rest with
      | [] => some (Except.error errTrunc)
      | blank :: rest2 =>
        if blank ≠ [] then
          some (Except.error (Error.invalidManifest "Expected blank line after header line."))
        else Manifest.parseLoop S bytes public_key rest2 []

/-! ## manifest.rs: serializer, subset predicate, selection -/

/-- One serialized entry line: version string, space, decimal size, space,
lowercase hex digest, newline. -/
def Entry.line (e : Entry) : List Nat :=
  e.version.string ++ [32] ++ decDigits e.len ++ [32] ++ append_hex e.digest ++ [10]

/-- Signed portion of the serialized manifest: header, blank line, entry
lines, and the blank line terminating the entries. -/
def serializeBody (m : Manifest) : List Nat :=
  ascii "Tako Manifest 1" ++ [10, 10] ++ (m.entries.map Entry.line).flatten ++ [10]

/-- Embedding of Manifest::serialize: header, blank line, entry lines, blank
line, then the base64 Ed25519 signature over everything so far, and a final
newline. -/
def Manifest.serialize (S : SigScheme) (m : Manifest) (secret_key : List Nat) : List Nat :=
  serializeBody m ++ append_base64 (S.sign secret_key (serializeBody m)) ++ [10]

/-- Embedding of the loop of Manifest::is_subset_of: for each entry of self,
advance through the remaining entries of other until an equal one is
consumed; running out of other entries means self is not a subset. -/
def subsetLoop : List Entry → List Entry → Bool
  | [], _ => true
  | _ :: _, [] => false
  | a :: as, b :: bs => if Entry.eqB b a then subsetLoop as bs else subsetLoop (a :: as) bs

/-- Embedding of Manifest::is_subset_of. -/
def Manifest.is_subset_of (m other : Manifest) : Bool :=
  subsetLoop m.entries other.entries

/-- Embedding of Manifest::latest_compatible_entry: first entry of the
reversed (descending) entry list whose version lies within the inclusive
bounds. -/
def Manifest.latest_compatible_entry (m : Manifest) (lower upper : Version) : Option Entry :=
  m.entries.reverse.find? (fun e => Version.le lower e.version && Version.le e.version upper)

/-! ## fetch.rs: manifest fetching and the latest pointer -/

/-- Message of the subset-check rejection in fetch_manifest. -/
def msgNotSuperset : String :=
  "The remote manifest is not a superset of the local manifest. Rejecting remote manifest."

/-- Embedding of fetch_manifest over an explicit model of its effects: the
locally stored manifest file is an optional byte string (load_local returns
none when the file does not exist), the download has already produced the
remote bytes. The returned pair is the call result and the stored manifest
file afterwards; store_local replaces the file with the remote bytes.
none models a panic inside manifest parsing. -/
def fetch_manifest (S : SigScheme) (public_key : List Nat)
    (local_file : Option (List Nat)) (remote_bytes : List Nat) :
    Option (Except Error Manifest × Option (List Nat)) :=
  let local_res : Option (Except Error (Option Manifest)) :=
    match local_file with
    | none => some (Except.ok none)
    | some bs =>
      match Manifest.parse S bs public_key with
      | none => none
      | some (Except.error e) => some (Except.error e)
      | some (Except.ok m) => some (Except.ok (some m))
  match local_res with
  | none => none
  | some (Except.error e) => some (Except.error e, local_file)
  | some (Except.ok local_manifest) =>
    match Manifest.parse S remote_bytes public_key with
    | none => none
    | some (Except.error e) => some (Except.error e, local_file)
    | some (Except.ok remote_manifest) =>
      if local_manifest.map (fun m => m.is_subset_of remote_manifest) = some false then
        some (Except.error (Error.operationError msgNotSuperset), local_file)
      else
        some (Except.ok remote_manifest, some remote_bytes)

/-- Model of the POSIX symlink(2) call used through std::os::unix::fs::symlink:
it creates the link only when the path does not exist yet; when a link (to
any target) already exists it fails with EEXIST and leaves the existing link
untouched. The link state is the optional target the path currently has. -/
def symlink_syscall (link_state : Option (List Nat)) (target : List Nat) :
    Except Unit Unit × Option (List Nat) :=
  match link_state with
  | some _ => (Except.error (), link_state)
  | none => (Except.ok (), some target)

/-- Embedding of fetch.rs update_symlink: read the link; if it already points
at the target, do nothing; in every other case call symlink(2) with the
target. The pair is the call result and the link state afterwards. -/
def update_symlink (current : Option (List Nat)) (target_path : List Nat) :
    Except Unit Unit × Option (List Nat) :=
  match current with
  | some points_at =>
    if points_at = target_path then (Except.ok (), current)
    else symlink_syscall current target_path
  | none => symlink_syscall current target_path

/-! ## util.rs and store.rs: secret-key ingest -/

/-- Embedding of the key pair of the ed25519 crate: 64 secret bytes and 32
public bytes (from_slice on those lengths only checks the length). -/
structure KeyPair where
  sk : List Nat
  pk : List Nat
  deriving DecidableEq, Repr

/-- UTF-8 continuation byte test (values 0x80 to 0xBF). Rust string slicing
s[..i] panics unless i is at most the length and i is a character boundary;
for i at most the length the boundary test is that the byte at index i is
not a continuation byte, and the getD default 0 covers i equal to the
length, which is always a boundary. -/
def isContByte (b : Nat) : Bool := 128 ≤ b && b < 192

/-- Embedding of util.rs parse_key_pair. The source slices the first seven
bytes of the str input before anything else, which panics on inputs shorter
than seven bytes (range out of bounds) and on inputs whose byte index seven
falls inside a multi-byte character (char-boundary panic); both panics are
modeled as none. Then it requires the SECRET+ marker, decodes the remainder
as base64 and requires a 96-byte payload that is split into the 64-byte
secret key and the 32-byte public key. -/
def parse_key_pair (pair_base64 : List Nat) : Option (Except Error KeyPair) :=
  if pair_base64.length < 7 then none
  else if isContByte (pair_base64.getD 7 0) then none
  else if pair_base64.take 7 = ascii "SECRET+" then
    match decode_base64 (pair_base64.drop 7) with
    | none => some (Except.error Error.invalidSecretKeyData)
    | some pair_bytes =>
      if pair_bytes.length ≠ 96 then some (Except.error Error.invalidSecretKeyData)
      else some (Except.ok ⟨pair_bytes.take 64, pair_bytes.drop 64⟩)
  else some (Except.error Error.invalidSecretKeyMark)

/-- Embedding of the marker check at the start of store.rs store(): the first
seven bytes must be the legacy SECRET: marker, anything else is invalid
secret key data; on success the remainder is handed to the base64 decoder of
the external base64 crate, which is outside this fragment. The str slice at
seven panics on shorter inputs and when byte index seven falls inside a
multi-byte character, both modeled as none. -/
def store_secret_marker_check (s : List Nat) : Option (Except Error (List Nat)) :=
  if s.length < 7 then none
  else if isContByte (s.getD 7 0) then none
  else if s.take 7 = ascii "SECRET:" then some (Except.ok (s.drop 7))
  else some (Except.error Error.invalidSecretKeyData)

/-- Embedding of the secret-key source selection of store.rs store(): an
explicit key argument wins; otherwise the key file contents are truncated at
43 + 7 = 50 characters with String::truncate, which is a no-op on shorter
contents but panics when byte index 50 falls inside a multi-byte character
(the getD default 0 makes the test false when the contents are at most 50
bytes, where truncate never panics); with neither source present the code
hits unreachable, also modeled as none. -/
def store_secret_check (secret_key key_file_contents : Option (List Nat)) :
    Option (Except Error (List Nat)) :=
  match secret_key, key_file_contents with
  | some k, _ => store_secret_marker_check k
  | none, some contents =>
    if isContByte (contents.getD 50 0) then none
    else store_secret_marker_check (contents.take 50)
  | none, none => none

/-! ## Ordering properties of the version comparison -/

theorem lexCmp_cons (a b : Nat) (as bs : List Nat) :
    lexCmp (a :: as) (b :: bs) = (compare a b).then (lexCmp as bs) := by
  simp only [lexCmp]
  cases compare a b <;> simp [Ordering.then]

theorem lexCmp_swap : ∀ (a b : List Nat), (lexCmp a b).swap = lexCmp b a
  | [], [] => rfl
  | [], _ :: _ => rfl
  | _ :: _, [] => rfl
  | a :: as, b :: bs => by
    rw [lexCmp_cons, lexCmp_cons, Ordering.swap_then,
      @Batteries.OrientedCmp.symm Nat compare _ a b, lexCmp_swap as bs]

/-- One step of the transitivity argument for comparison loops of the shape
(cmp heads).then (loop on tails), for any oriented transitive comparator. -/
theorem then_le_trans_step {α : Type} (cmp : α → α → Ordering) [Batteries.TransCmp cmp]
    {x y z : α} {t1 t2 t3 : Ordering}
    (ht : t1 ≠ .gt → t2 ≠ .gt → t3 ≠ .gt)
    (h1 : (cmp x y).then t1 ≠ .gt) (h2 : (cmp y z).then t2 ≠ .gt) :
    (cmp x z).then t3 ≠ .gt := by
  simp only [ne_eq, Ordering.then_eq_gt] at h1 h2 ⊢
  push_neg at h1 h2 ⊢
  rcases hxy : cmp x y with _ | _ | _
  · rcases hyz : cmp y z with _ | _ | _
    · have hxz : cmp x z = .lt := Batteries.TransCmp.lt_trans hxy hyz
      exact ⟨by simp [hxz], by simp [hxz]⟩
    · have hxz : cmp x z = .lt := by
        rw [Batteries.TransCmp.cmp_congr_right hyz] at hxy
        exact hxy
      exact ⟨by simp [hxz], by simp [hxz]⟩
    · exact absurd hyz h2.1
  · rcases hyz : cmp y z with _ | _ | _
    · have hxz : cmp x z = .lt := by
        rw [Batteries.TransCmp.cmp_congr_left hxy]
        exact hyz
      exact ⟨by simp [hxz], by simp [hxz]⟩
    · have hxz : cmp x z = .eq := by
        rw [Batteries.TransCmp.cmp_congr_left hxy]
        exact hyz
      exact ⟨by simp [hxz], fun _ => ht (h1.2 hxy) (h2.2 hyz)⟩
    · exact absurd hyz h2.1
  · exact absurd hxy h1.1

theorem lexCmp_le_trans : ∀ (a b c : List Nat),
    lexCmp a b ≠ .gt → lexCmp b c ≠ .gt → lexCmp a c ≠ .gt
  | [], _, c, _, _ => by cases c <;> simp [lexCmp]
  | _ :: _, [], _, h1, _ => absurd rfl h1
  | _ :: _, _ :: _, [], _, h2 => absurd rfl h2
  | a :: as, b :: bs, c :: cs, h1, h2 => by
    rw [lexCmp_cons] at h1 h2 ⊢
    exact then_le_trans_step compare (lexCmp_le_trans as bs cs) h1 h2

theorem lexCmp_eq_iff : ∀ (a b : List Nat), lexCmp a b = .eq ↔ a = b
  | [], [] => by simp [lexCmp]
  | [], _ :: _ => by simp [lexCmp]
  | _ :: _, [] => by simp [lexCmp]
  | a :: as, b :: bs => by
    rw [lexCmp_cons, Ordering.then_eq_eq, Nat.compare_eq_eq, lexCmp_eq_iff as bs]
    simp

theorem partCmp_swap : ∀ (p q : Part), (partCmp p q).swap = partCmp q p := by
  intro p q
  cases p <;> cases q <;>
    first
      | rfl
      | exact @Batteries.OrientedCmp.symm Nat compare _ _ _
      | exact lexCmp_swap _ _

theorem partCmp_le_trans : ∀ {p q r : Part},
    partCmp p q ≠ .gt → partCmp q r ≠ .gt → partCmp p r ≠ .gt := by
  intro p q r h1 h2
  cases p <;> cases q <;> cases r <;>
    simp only [partCmp] at h1 h2 ⊢ <;>
    first
      | exact h1
      | exact h2
      | exact Batteries.TransCmp.le_trans h1 h2
      | exact lexCmp_le_trans _ _ _ h1 h2
      | simp_all

/-- Pairwise part comparison is an oriented, transitive comparator. -/
instance : Batteries.TransCmp partCmp where
  symm := partCmp_swap
  le_trans := partCmp_le_trans

theorem partEqB_iff (p q : Part) : partEqB p q = true ↔ partCmp p q = .eq := by
  cases p <;> cases q <;>
    simp [partEqB, partCmp, Nat.compare_eq_eq, lexCmp_eq_iff]

theorem cmpParts_cons (p q : Part) (ps qs : List Part) :
    cmpParts (p :: ps) (q :: qs) = (partCmp p q).then (cmpParts ps qs) := by
  simp only [cmpParts]
  cases partCmp p q <;> simp [Ordering.then]

theorem cmpParts_cons_nil (p : Part) (ps : List Part) :
    cmpParts (p :: ps) [] = (partCmp p (Part.num 0)).then (cmpParts ps []) := by
  simp only [cmpParts]
  cases partCmp p (Part.num 0) <;> simp [Ordering.then]

theorem cmpParts_nil_cons (q : Part) (qs : List Part) :
    cmpParts [] (q :: qs) = (partCmp (Part.num 0) q).then (cmpParts [] qs) := by
  show cmpNilParts (q :: qs) = (partCmp (Part.num 0) q).then (cmpNilParts qs)
  simp only [cmpNilParts]
  cases partCmp (Part.num 0) q <;> simp [Ordering.then]

theorem cmpParts_swap : ∀ (a b : List Part), (cmpParts a b).swap = cmpParts b a
  | [], [] => rfl
  | p :: ps, q :: qs => by
    rw [cmpParts_cons, cmpParts_cons, Ordering.swap_then, partCmp_swap, cmpParts_swap ps qs]
  | p :: ps, [] => by
    rw [cmpParts_cons_nil, cmpParts_nil_cons, Ordering.swap_then, partCmp_swap, cmpParts_swap ps []]
  | [], q :: qs => by
    rw [cmpParts_nil_cons, cmpParts_cons_nil, Ordering.swap_then, partCmp_swap,
      cmpParts_swap ([] : List Part) qs]
  termination_by a b => a.length + b.length

theorem cmpParts_le_trans : ∀ (a b c : List Part),
    cmpParts a b ≠ .gt → cmpParts b c ≠ .gt → cmpParts a c ≠ .gt
  | [], [], _, _, h2 => h2
  | [], _ :: _, [], _, _ => by simp [cmpParts, cmpNilParts]
  | _ :: _, [], [], h1, _ => h1
  | [], q :: qs, r :: rs, h1, h2 => by
    rw [cmpParts_nil_cons] at h1 ⊢
    rw [cmpParts_cons] at h2
    exact then_le_trans_step partCmp (cmpParts_le_trans [] qs rs) h1 h2
  | p :: ps, [], r :: rs, h1, h2 => by
    rw [cmpParts_cons_nil] at h1
    rw [cmpParts_nil_cons] at h2
    rw [cmpParts_cons]
    exact then_le_trans_step partCmp (cmpParts_le_trans ps [] rs) h1 h2
  | p :: ps, q :: qs, [], h1, h2 => by
    rw [cmpParts_cons] at h1
    rw [cmpParts_cons_nil] at h2 ⊢
    exact then_le_trans_step partCmp (cmpParts_le_trans ps qs []) h1 h2
  | p :: ps, q :: qs, r :: rs, h1, h2 => by
    rw [cmpParts_cons] at h1 h2 ⊢
    exact then_le_trans_step partCmp (cmpParts_le_trans ps qs rs) h1 h2
  termination_by a b c => a.length + b.length + c.length

/-- The zero-padded comparison loop is an oriented, transitive comparator. -/
instance : Batteries.TransCmp cmpParts where
  symm := cmpParts_swap
  le_trans := fun h1 h2 => cmpParts_le_trans _ _ _ h1 h2

theorem eqParts_iff : ∀ (a b : List Part), eqParts a b = true ↔ cmpParts a b = .eq
  | [], [] => by simp [eqParts, eqNilParts, cmpParts, cmpNilParts]
  | p :: ps, q :: qs => by
    rw [eqParts, cmpParts_cons, Ordering.then_eq_eq, Bool.and_eq_true,
      partEqB_iff, eqParts_iff ps qs]
  | p :: ps, [] => by
    rw [eqParts, cmpParts_cons_nil, Ordering.then_eq_eq, Bool.and_eq_true,
      partEqB_iff, eqParts_iff ps []]
  | [], q :: qs => by
    have h : eqParts [] (q :: qs) = (partEqB (Part.num 0) q && eqParts [] qs) := rfl
    rw [h, cmpParts_nil_cons, Ordering.then_eq_eq, Bool.and_eq_true,
      partEqB_iff, eqParts_iff [] qs]
  termination_by a b => a.length + b.length

/-- The comparison of Versions is an oriented, transitive comparator. -/
instance : Batteries.TransCmp Version.cmp where
  symm := fun a b => cmpParts_swap a.parts b.parts
  le_trans := fun h1 h2 => cmpParts_le_trans _ _ _ h1 h2

theorem Version.cmp_refl (a : Version) : Version.cmp a a = .eq :=
  Batteries.OrientedCmp.cmp_refl

theorem Version.le_refl (a : Version) : Version.le a a = true := by
  rw [Version.le, Version.cmp_refl]
  rfl

/-! ## Claim C5 -/

/-- C5: version comparison (defined by zero-padding the shorter part sequence
with Num(0) and comparing pairwise) is a total order on parsed versions: it
is reflexive, antisymmetric and transitive, the equality test agrees with the
comparison returning Equal, the parses of 1.0, 1 and 1.0.0 are all equal, and
the parse of 1.0-beta sorts strictly below the parse of 1.0. -/
theorem C5_version_cmp_total_order :
    (∀ a : Version, Version.cmp a a = .eq)
    ∧ (∀ a b : Version, (Version.cmp a b).swap = Version.cmp b a)
    ∧ (∀ a b : Version, Version.cmp a b ≠ .gt → Version.cmp b a ≠ .gt → Version.eqB a b = true)
    ∧ (∀ a b c : Version, Version.cmp a b = .lt → Version.cmp b c = .lt → Version.cmp a c = .lt)
    ∧ (∀ a b : Version, Version.eqB a b = true ↔ Version.cmp a b = .eq)
    ∧ (∃ v10 v1 v100 vbeta : Version,
        Version.new? (ascii "1.0") = some v10
        ∧ Version.new? (ascii "1") = some v1
        ∧ Version.new? (ascii "1.0.0") = some v100
        ∧ Version.new? (ascii "1.0-beta") = some vbeta
        ∧ Version.eqB v10 v1 = true
        ∧ Version.eqB v1 v100 = true
        ∧ Version.cmp vbeta v10 = .lt) := by
  refine ⟨Version.cmp_refl, fun a b => Batteries.OrientedCmp.symm a b, ?_, ?_, ?_, ?_⟩
  · intro a b h1 h2
    rw [Version.eqB, eqParts_iff]
    rcases h : Version.cmp a b with _ | _ | _
    · have : Version.cmp b a = .gt := Batteries.OrientedCmp.cmp_eq_gt.mpr h
      exact absurd this h2
    · exact h
    · exact absurd h h1
  · exact fun a b c h1 h2 => Batteries.TransCmp.lt_trans h1 h2
  · exact fun a b => eqParts_iff a.parts b.parts
  · exact ⟨⟨ascii "1.0", [Part.num 1, Part.num 0]⟩, ⟨ascii "1", [Part.num 1]⟩,
      ⟨ascii "1.0.0", [Part.num 1, Part.num 0, Part.num 0]⟩,
      ⟨ascii "1.0-beta", [Part.num 1, Part.num 0, Part.str (ascii "beta")]⟩,
      by decide, by decide, by decide, by decide, by decide, by decide, by decide⟩

/-- Witness for C5: the antisymmetry and transitivity components applied at
concrete parsed versions. -/
theorem C5_witness :
    Version.eqB ⟨ascii "1.0", [Part.num 1, Part.num 0]⟩ ⟨ascii "1", [Part.num 1]⟩ = true
    ∧ Version.cmp ⟨ascii "1", [Part.num 1]⟩ ⟨ascii "3", [Part.num 3]⟩ = .lt := by
  constructor
  · exact C5_version_cmp_total_order.2.2.1 ⟨ascii "1.0", [Part.num 1, Part.num 0]⟩
      ⟨ascii "1", [Part.num 1]⟩ (by decide) (by decide)
  · exact C5_version_cmp_total_order.2.2.2.1 ⟨ascii "1", [Part.num 1]⟩
      ⟨ascii "2", [Part.num 2]⟩ ⟨ascii "3", [Part.num 3]⟩ (by decide) (by decide)

/-! ## Claim C6 -/

/-- C6: the claim states that Version parsing is total over any input and
never panics, with numeric parts overflowing 64 bits rejected via a parse
error. The source instead reaches u64::from_str(...).unwrap() on the
all-digits part 18446744073709551616 (which is 2 to the 64th), from_str fails
with an overflow, and the unwrap panics; the panic is the none result of the
embedding. The boundary value 2 to the 64th minus one still parses fine. -/
theorem C6_version_new_overflow_panics :
    Version.new? (ascii "18446744073709551616") = none
    ∧ Version.new? (ascii "18446744073709551615")
      = some ⟨ascii "18446744073709551615", [Part.num 18446744073709551615]⟩ := by
  exact ⟨by decide, by decide⟩

/-! ## Claim C2 -/

/-- Sortedness of an entry list in ascending version order, the invariant
maintained by Manifest::insert. -/
abbrev entriesSorted (l : List Entry) : Prop :=
  List.Pairwise (fun x y => Version.le x.version y.version = true) l

/-- Ordered containment of entry lists: every entry of the first list is
matched, in order, by an equal entry of the second (the specification reading
of the subset predicate). -/
inductive EntrySubseq : List Entry → List Entry → Prop
  | nil (bs : List Entry) : EntrySubseq [] bs
  | cons {a b : Entry} {as bs : List Entry} (h : Entry.eqB b a = true)
      (t : EntrySubseq as bs) : EntrySubseq (a :: as) (b :: bs)
  | skip {as bs : List Entry} (b : Entry) (t : EntrySubseq as bs) : EntrySubseq as (b :: bs)

theorem EntrySubseq_tail {a : Entry} {as bs : List Entry}
    (h : EntrySubseq (a :: as) bs) : EntrySubseq as bs := by
  generalize hl : a :: as = l at h
  induction h generalizing a as with
  | nil => cases hl
  | cons hab t _ =>
    cases hl
    exact EntrySubseq.skip _ t
  | skip b t ih =>
    exact EntrySubseq.skip b (ih hl)

theorem subsetLoop_imp : ∀ (bs as : List Entry), subsetLoop as bs = true → EntrySubseq as bs := by
  intro bs
  induction bs with
  | nil =>
    intro as h
    cases as with
    | nil => exact EntrySubseq.nil []
    | cons a as => simp [subsetLoop] at h
  | cons b bs ih =>
    intro as h
    cases as with
    | nil => exact EntrySubseq.nil _
    | cons a as =>
      simp only [subsetLoop] at h
      split at h
      · next hab => exact EntrySubseq.cons hab (ih as h)
      · exact EntrySubseq.skip b (ih (a :: as) h)

theorem EntrySubseq_imp : ∀ (bs as : List Entry), EntrySubseq as bs → subsetLoop as bs = true := by
  intro bs
  induction bs with
  | nil =>
    intro as h
    cases as with
    | nil => rfl
    | cons a as => cases h
  | cons b bs ih =>
    intro as h
    cases as with
    | nil => rfl
    | cons a as =>
      simp only [subsetLoop]
      split
      · next hab =>
        cases h with
        | cons h' t => exact ih as t
        | skip _ t => exact ih as (EntrySubseq_tail t)
      · next hab =>
        cases h with
        | cons h' t => exact absurd h' hab
        | skip _ t => exact ih (a :: as) t

/-- Concrete version 1.0.0 used in the examples below. -/
def exV100 : Version := ⟨ascii "1.0.0", [Part.num 1, Part.num 0, Part.num 0]⟩

/-- Example entry with the all-zero digest. -/
def exEntryA : Entry := ⟨exV100, 17, List.replicate 32 0⟩

/-- Example entry with the same version but a different digest. -/
def exEntryB : Entry := ⟨exV100, 17, 1 :: List.replicate 31 0⟩

/-- C2: for sorted manifests, is_subset_of is true exactly when every entry
of the first manifest occurs, in order, in the second under full triple
equality (the single merge-like forward pass); and an entry of A occurring in
B only before the match position of an earlier entry of A makes the predicate
false even though each entry of A occurs somewhere in B. -/
theorem C2_is_subset_of_iff :
    (∀ A B : Manifest, entriesSorted A.entries → entriesSorted B.entries →
      (A.is_subset_of B = true ↔ EntrySubseq A.entries B.entries))
    ∧ Manifest.is_subset_of ⟨[exEntryA, exEntryB]⟩ ⟨[exEntryB, exEntryA]⟩ = false
    ∧ (∀ e ∈ [exEntryA, exEntryB], ∃ b ∈ [exEntryB, exEntryA], Entry.eqB e b = true)
    ∧ entriesSorted [exEntryA, exEntryB] ∧ entriesSorted [exEntryB, exEntryA] := by
  refine ⟨?_, by decide, by decide, ?_, ?_⟩
  · intro A B _ _
    exact ⟨subsetLoop_imp B.entries A.entries, EntrySubseq_imp B.entries A.entries⟩
  · exact List.Pairwise.cons (by decide) (List.Pairwise.cons (by simp) List.Pairwise.nil)
  · exact List.Pairwise.cons (by decide) (List.Pairwise.cons (by simp) List.Pairwise.nil)

/-- Witness for C2: the characterization applied at a concrete sorted pair of
manifests, in both directions. -/
theorem C2_witness :
    Manifest.is_subset_of ⟨[exEntryA]⟩ ⟨[exEntryA, exEntryB]⟩ = true := by
  have h := C2_is_subset_of_iff.1 ⟨[exEntryA]⟩ ⟨[exEntryA, exEntryB]⟩
    (List.pairwise_singleton _ _) (C2_is_subset_of_iff.2.2.2.1)
  exact h.mpr (EntrySubseq.cons (by decide) (EntrySubseq.nil _))

/-! ## Claim C3 -/

theorem find?_desc_max {p : Entry → Bool} : ∀ {l : List Entry},
    List.Pairwise (fun x y => Version.le y.version x.version = true) l →
    ∀ {r : Entry}, l.find? p = some r →
      p r = true ∧ r ∈ l ∧ ∀ e ∈ l, p e = true → Version.le e.version r.version = true := by
  intro l
  induction l with
  | nil => intro _ r h; simp at h
  | cons x xs ih =>
    intro hs r h
    by_cases hx : p x = true
    · rw [List.find?_cons_of_pos _ hx] at h
      cases h
      refine ⟨hx, List.mem_cons_self _ _, ?_⟩
      intro e he _
      rcases List.mem_cons.mp he with rfl | he
      · exact Version.le_refl _
      · exact (List.pairwise_cons.mp hs).1 e he
    · rw [List.find?_cons_of_neg _ (by simpa using hx)] at h
      obtain ⟨hp, hmem, hmax⟩ := ih (List.pairwise_cons.mp hs).2 h
      refine ⟨hp, List.mem_cons_of_mem _ hmem, ?_⟩
      intro e he hpe
      rcases List.mem_cons.mp he with rfl | he
      · exact absurd hpe hx
      · exact hmax e he hpe

/-- Concrete manifest with versions 1.0.0, 1.1.0, 1.2.1 and 2.0.0 from the
wildcard-selection scenario. -/
def exM3 : Manifest := ⟨[
  ⟨⟨ascii "1.0.0", [Part.num 1, Part.num 0, Part.num 0]⟩, 17, List.replicate 32 0⟩,
  ⟨⟨ascii "1.1.0", [Part.num 1, Part.num 1, Part.num 0]⟩, 17, List.replicate 32 0⟩,
  ⟨⟨ascii "1.2.1", [Part.num 1, Part.num 2, Part.num 1]⟩, 17, List.replicate 32 0⟩,
  ⟨⟨ascii "2.0.0", [Part.num 2, Part.num 0, Part.num 0]⟩, 17, List.replicate 32 0⟩]⟩

/-- C3: with sorted entries and bounds produced by pattern_to_bounds,
latest_compatible_entry returns an entry of the manifest that lies within the
inclusive bounds and whose version dominates every in-bounds entry, or none
exactly when no entry is in bounds; on the concrete manifest with versions
1.0.0, 1.1.0, 1.2.1, 2.0.0, the pattern 1.* selects 1.2.1, the pattern 1.0.*
selects 1.0.0, and the pattern 3.* selects nothing. -/
theorem C3_latest_compatible_entry :
    (∀ (m : Manifest) (pat lower upper : Version), entriesSorted m.entries →
      Version.pattern_to_bounds pat = (lower, upper) →
      (∀ e, m.latest_compatible_entry lower upper = some e →
        e ∈ m.entries
        ∧ Version.le lower e.version = true ∧ Version.le e.version upper = true
        ∧ ∀ e' ∈ m.entries, Version.le lower e'.version = true →
            Version.le e'.version upper = true → Version.le e'.version e.version = true)
      ∧ (m.latest_compatible_entry lower upper = none →
        ∀ e' ∈ m.entries,
          ¬(Version.le lower e'.version = true ∧ Version.le e'.version upper = true)))
    ∧ (Version.new? (ascii "1.*") = some ⟨ascii "1.*", [Part.num 1, Part.str (ascii "*")]⟩
       ∧ exM3.latest_compatible_entry
           (Version.pattern_to_bounds ⟨ascii "1.*", [Part.num 1, Part.str (ascii "*")]⟩).1
           (Version.pattern_to_bounds ⟨ascii "1.*", [Part.num 1, Part.str (ascii "*")]⟩).2
         = some ⟨⟨ascii "1.2.1", [Part.num 1, Part.num 2, Part.num 1]⟩, 17, List.replicate 32 0⟩)
    ∧ (Version.new? (ascii "1.0.*")
         = some ⟨ascii "1.0.*", [Part.num 1, Part.num 0, Part.str (ascii "*")]⟩
       ∧ exM3.latest_compatible_entry
           (Version.pattern_to_bounds ⟨ascii "1.0.*", [Part.num 1, Part.num 0, Part.str (ascii "*")]⟩).1
           (Version.pattern_to_bounds ⟨ascii "1.0.*", [Part.num 1, Part.num 0, Part.str (ascii "*")]⟩).2
         = some ⟨⟨ascii "1.0.0", [Part.num 1, Part.num 0, Part.num 0]⟩, 17, List.replicate 32 0⟩)
    ∧ (Version.new? (ascii "3.*") = some ⟨ascii "3.*", [Part.num 3, Part.str (ascii "*")]⟩
       ∧ exM3.latest_compatible_entry
           (Version.pattern_to_bounds ⟨ascii "3.*", [Part.num 3, Part.str (ascii "*")]⟩).1
           (Version.pattern_to_bounds ⟨ascii "3.*", [Part.num 3, Part.str (ascii "*")]⟩).2
         = none) := by
  refine ⟨?_, by decide, by decide, by decide⟩
  intro m pat lower upper hs _
  constructor
  · intro e he
    rw [Manifest.latest_compatible_entry] at he
    have hd : List.Pairwise (fun x y => Version.le y.version x.version = true) m.entries.reverse :=
      List.pairwise_reverse.mpr hs
    obtain ⟨hp, hmem, hmax⟩ := find?_desc_max hd he
    rw [List.mem_reverse] at hmem
    rw [Bool.and_eq_true] at hp
    refine ⟨hmem, hp.1, hp.2, ?_⟩
    intro e' he' h1 h2
    exact hmax e' (List.mem_reverse.mpr he') (by rw [Bool.and_eq_true]; exact ⟨h1, h2⟩)
  · intro hnone e' he'
    rintro ⟨h1, h2⟩
    rw [Manifest.latest_compatible_entry, List.find?_eq_none] at hnone
    have := hnone e' (List.mem_reverse.mpr he')
    simp [h1, h2] at this

/-- Witness for C3: the selection property applied to the concrete manifest
and the bounds of the pattern 1.*, recovering membership of the selected
entry. -/
theorem C3_witness :
    (⟨⟨ascii "1.2.1", [Part.num 1, Part.num 2, Part.num 1]⟩, 17,
      List.replicate 32 0⟩ : Entry) ∈ exM3.entries := by
  have h := (C3_latest_compatible_entry.1 exM3 ⟨ascii "1.*", [Part.num 1, Part.str (ascii "*")]⟩
    ⟨ascii "1.*", [Part.num 1, Part.min]⟩ ⟨ascii "1.*", [Part.num 1, Part.max]⟩
    (by decide) (by decide)).1
    ⟨⟨ascii "1.2.1", [Part.num 1, Part.num 2, Part.num 1]⟩, 17, List.replicate 32 0⟩
    (by decide)
  exact h.1

/-! ## Claim C7 -/

theorem decode_b64char_table : ∀ i < 64, decode_base64_char (b64char i) = some i := by
  decide

theorem b64char_ne_61 : ∀ i < 64, b64char i ≠ 61 := by
  decide

theorem decodeQuartets_cons (i0 i1 i2 i3 : Nat) (rest : List Nat)
    (h0 : i0 < 64) (h1 : i1 < 64) (h2 : i2 < 64) (h3 : i3 < 64) :
    decodeQuartets (b64char i0 :: b64char i1 :: b64char i2 :: b64char i3 :: rest)
      = (decodeQuartets rest).map
          (fun tail => (i0 * 4 + i1 / 16) :: (i1 % 16 * 16 + i2 / 4) :: (i2 % 4 * 64 + i3) :: tail) := by
  cases hr : decodeQuartets rest with
  | none =>
    simp [decodeQuartets, decode_b64char_table i0 h0, decode_b64char_table i1 h1,
      decode_b64char_table i2 h2, decode_b64char_table i3 h3,
      b64char_ne_61 i2 h2, b64char_ne_61 i3 h3, hr]
  | some tail =>
    simp [decodeQuartets, decode_b64char_table i0 h0, decode_b64char_table i1 h1,
      decode_b64char_table i2 h2, decode_b64char_table i3 h3,
      b64char_ne_61 i2 h2, b64char_ne_61 i3 h3, hr]

theorem decodeQuartets_append : ∀ (b : List Nat), (∀ x ∈ b, x < 256) →
    decodeQuartets (append_base64 b) = some b
  | [], _ => rfl
  | [x1], h => by
    have hx : x1 < 256 := h x1 (by simp)
    simp [append_base64, decodeQuartets,
      decode_b64char_table (x1 / 4) (by omega), decode_b64char_table (x1 % 4 * 16) (by omega)]
    omega
  | [x1, x2], h => by
    have hx1 : x1 < 256 := h x1 (by simp)
    have hx2 : x2 < 256 := h x2 (by simp)
    simp [append_base64, decodeQuartets,
      decode_b64char_table (x1 / 4) (by omega),
      decode_b64char_table (x1 % 4 * 16 + x2 / 16) (by omega),
      decode_b64char_table (x2 % 16 * 4) (by omega),
      b64char_ne_61 (x2 % 16 * 4) (by omega)]
    omega
  | x1 :: x2 :: x3 :: rest, h => by
    have hx1 : x1 < 256 := h x1 (by simp)
    have hx2 : x2 < 256 := h x2 (by simp)
    have hx3 : x3 < 256 := h x3 (by simp)
    have hrest : ∀ x ∈ rest, x < 256 := fun x hx => h x (by simp [hx])
    simp only [append_base64]
    rw [decodeQuartets_cons (x1 / 4) (x1 % 4 * 16 + x2 / 16) (x2 % 16 * 4 + x3 / 64) (x3 % 64)
      (append_base64 rest) (by omega) (by omega) (by omega) (by omega)]
    rw [decodeQuartets_append rest hrest]
    simp
    omega

theorem append_base64_length_mod : ∀ b : List Nat, (append_base64 b).length % 4 = 0
  | [] => rfl
  | [_] => by simp [append_base64]
  | [_, _] => by simp [append_base64]
  | _ :: _ :: _ :: rest => by
    simp only [append_base64, List.length_cons]
    have := append_base64_length_mod rest
    omega

theorem decode_char_mem {c b : Nat} (h : decode_base64_char c = some b) : c ∈ BASE64_CHARS := by
  unfold decode_base64_char at h
  split_ifs at h with h1 h2 h3 h4 h5
  · obtain ⟨hl, hr⟩ := h1
    interval_cases c <;> decide
  · obtain ⟨hl, hr⟩ := h2
    interval_cases c <;> decide
  · obtain ⟨hl, hr⟩ := h3
    interval_cases c <;> decide
  · subst h4; decide
  · subst h5; decide

theorem b64_mem_ne_61 : ∀ c ∈ BASE64_CHARS, c ≠ 61 := by decide

theorem decodeQuartets_wf : ∀ (s out : List Nat), decodeQuartets s = some out →
    (∀ c ∈ s, c ∈ BASE64_CHARS ∨ c = 61)
    ∧ ((61 : Nat) ∉ s ∨ ∃ t, (61 : Nat) ∉ t ∧ (s = t ++ [61] ∨ s = t ++ [61, 61]))
  | [], _, _ => ⟨by simp, Or.inl (by simp)⟩
  | [_], _, h => by simp [decodeQuartets] at h
  | [_, _], _, h => by simp [decodeQuartets] at h
  | [_, _, _], _, h => by simp [decodeQuartets] at h
  | c0 :: c1 :: c2 :: c3 :: rest, out, h => by
    simp only [decodeQuartets] at h
    split at h
    case _ b0 b1 hb0 hb1 =>
      have m0 := decode_char_mem hb0
      have m1 := decode_char_mem hb1
      split at h
      · next hc =>
        obtain ⟨rfl, rfl, rfl⟩ := hc
        refine ⟨?_, Or.inr ⟨[c0, c1], ?_, Or.inr rfl⟩⟩
        · intro c hcm
          rcases List.mem_cons.mp hcm with rfl | hcm
          · exact Or.inl m0
          rcases List.mem_cons.mp hcm with rfl | hcm
          · exact Or.inl m1
          rcases List.mem_cons.mp hcm with rfl | hcm
          · exact Or.inr rfl
          rcases List.mem_cons.mp hcm with rfl | hcm
          · exact Or.inr rfl
          · simp at hcm
        · simp only [List.mem_cons, List.not_mem_nil, or_false]
          push_neg
          exact ⟨fun he => b64_mem_ne_61 _ m0 he.symm, fun he => b64_mem_ne_61 _ m1 he.symm⟩
      · split at h
        case _ b2 hb2 =>
          have m2 := decode_char_mem hb2
          split at h
          · next hc3 =>
            obtain ⟨rfl, rfl⟩ := hc3
            refine ⟨?_, Or.inr ⟨[c0, c1, c2], ?_, Or.inl rfl⟩⟩
            · intro c hcm
              rcases List.mem_cons.mp hcm with rfl | hcm
              · exact Or.inl m0
              rcases List.mem_cons.mp hcm with rfl | hcm
              · exact Or.inl m1
              rcases List.mem_cons.mp hcm with rfl | hcm
              · exact Or.inl m2
              rcases List.mem_cons.mp hcm with rfl | hcm
              · exact Or.inr rfl
              · simp at hcm
            · simp only [List.mem_cons, List.not_mem_nil, or_false]
              push_neg
              exact ⟨fun he => b64_mem_ne_61 _ m0 he.symm, fun he => b64_mem_ne_61 _ m1 he.symm,
                fun he => b64_mem_ne_61 _ m2 he.symm⟩
          · split at h
            case _ b3 tail hb3 htail =>
              have m3 := decode_char_mem hb3
              obtain ⟨ihm, ihp⟩ := decodeQuartets_wf rest tail htail
              have n0 : c0 ≠ 61 := b64_mem_ne_61 _ m0
              have n1 : c1 ≠ 61 := b64_mem_ne_61 _ m1
              have n2 : c2 ≠ 61 := b64_mem_ne_61 _ m2
              have n3 : c3 ≠ 61 := b64_mem_ne_61 _ m3
              refine ⟨?_, ?_⟩
              · intro c hcm
                rcases List.mem_cons.mp hcm with rfl | hcm
                · exact Or.inl m0
                rcases List.mem_cons.mp hcm with rfl | hcm
                · exact Or.inl m1
                rcases List.mem_cons.mp hcm with rfl | hcm
                · exact Or.inl m2
                rcases List.mem_cons.mp hcm with rfl | hcm
                · exact Or.inl m3
                · exact ihm c hcm
              · rcases ihp with hni | ⟨t, hnt, ht⟩
                · refine Or.inl ?_
                  simp only [List.mem_cons]
                  push_neg
                  exact ⟨fun he => n0 he.symm, fun he => n1 he.symm, fun he => n2 he.symm,
                    fun he => n3 he.symm, hni⟩
                · refine Or.inr ⟨c0 :: c1 :: c2 :: c3 :: t, ?_, ?_⟩
                  · simp only [List.mem_cons]
                    push_neg
                    exact ⟨fun he => n0 he.symm, fun he => n1 he.symm, fun he => n2 he.symm,
                      fun he => n3 he.symm, hnt⟩
                  · rcases ht with ht | ht
                    · exact Or.inl (by rw [ht]; simp)
                    · exact Or.inr (by rw [ht]; simp)
            case _ => simp at h
        case _ => simp at h
    case _ => simp at h

/-- C7: encoding then decoding returns the original bytes; the decoder
rejects every input whose length is not a multiple of four; and when decoding
succeeds, every input byte is in the base64 alphabet or is the pad byte, and
pad bytes occur only as the final one or two bytes of the input (that is, in
positions three and four of the final quartet). -/
theorem C7_base64_roundtrip_and_reject :
    (∀ b : List Nat, (∀ x ∈ b, x < 256) → decode_base64 (encode_base64 b) = some b)
    ∧ (∀ s : List Nat, s.length % 4 ≠ 0 → decode_base64 s = none)
    ∧ (∀ s out : List Nat, decode_base64 s = some out →
        (∀ c ∈ s, c ∈ BASE64_CHARS ∨ c = 61)
        ∧ ((61 : Nat) ∉ s ∨ ∃ t, (61 : Nat) ∉ t ∧ (s = t ++ [61] ∨ s = t ++ [61, 61]))) := by
  refine ⟨?_, ?_, ?_⟩
  · intro b hb
    rw [encode_base64, decode_base64, if_neg (by simp [append_base64_length_mod b])]
    exact decodeQuartets_append b hb
  · intro s hs
    rw [decode_base64, if_pos hs]
  · intro s out h
    rw [decode_base64] at h
    split at h
    · exact absurd h (by simp)
    · exact decodeQuartets_wf s out h

/-- Witness for C7: the round trip applied at a concrete byte sequence. -/
theorem C7_witness : decode_base64 (encode_base64 [116, 97, 107, 111]) = some [116, 97, 107, 111] :=
  C7_base64_roundtrip_and_reject.1 [116, 97, 107, 111] (by decide)

/-! ## Concrete signature scheme for evaluating the embedded code -/

/-- Signature scheme used for concrete runs: signatures are 64 zero bytes and
every verification succeeds, with every key pair considered paired. It
satisfies the abstract scheme laws. -/
def trustScheme : SigScheme where
  sign := fun _ _ => List.replicate 64 0
  verify := fun _ _ _ => true
  Paired := fun _ _ => True
  sign_length := fun _ _ => by simp
  sign_bytes := fun _ _ => by simp
  verify_sign := fun _ _ _ _ => rfl

/-! ## Claim C9 -/

/-- C9: the claim states that update_symlink is a no-op when the link already
points at the desired target and otherwise replaces the pointer (create or
overwrite) so that afterwards the symlink points at the desired target. The
no-op and creation cases behave as claimed, but when a link exists pointing
elsewhere the source calls std::os::unix::fs::symlink, which is symlink(2):
the call fails with EEXIST and the old link stays in place, so afterwards the
pointer still points at the old target — contradicting both the claim and
the source comment saying the symlink is overwritten. -/
theorem C9_update_symlink_eexist :
    update_symlink (some (ascii "store/aa")) (ascii "store/aa")
      = (Except.ok (), some (ascii "store/aa"))
    ∧ update_symlink none (ascii "store/bb") = (Except.ok (), some (ascii "store/bb"))
    ∧ update_symlink (some (ascii "store/aa")) (ascii "store/bb")
      = (Except.error (), some (ascii "store/aa")) := by
  exact ⟨by decide, by decide, by decide⟩

/-! ## Claim C10 -/

/-- Manifest input whose entry line carries the version 2 to the 64th, the
file size 0 and a valid all-zero digest. -/
def overflowManifestInput : List Nat :=
  ascii "Tako Manifest 1\n\n18446744073709551616 0 0000000000000000000000000000000000000000000000000000000000000000\n"

/-- C10: the claim states Manifest::parse never panics on any input byte
string. The trailer arithmetic is indeed safe, but parse_entry calls
Version::new on the version field of an entry line, and a version field that
is a single numeric part overflowing 64 bits makes Version::new panic (see
claim C6), so Manifest::parse panics on this structurally valid prefix of a
manifest; none models the panic, reached before any signature handling. -/
theorem C10_manifest_parse_panics :
    Manifest.parse trustScheme overflowManifestInput [] = none := by decide

/-! ## Claim C8 -/

/-- C8 counterexample: the claim says an input missing the SECRET+ marker
yields the missing-marker error, but on the three-byte input abc the source
slices pair_base64[..7] out of bounds and panics before any check, so no
error value is ever produced. -/
theorem C8_counterexample :
    parse_key_pair (ascii "abc") = none
    ∧ ∀ r : Except Error KeyPair, parse_key_pair (ascii "abc") ≠ some r := by
  refine ⟨by decide, ?_⟩
  intro r h
  rw [show parse_key_pair (ascii "abc") = none by decide] at h
  exact Option.noConfusion h

/-- C8 (amended): for inputs of at least seven bytes whose byte index seven
is a character boundary, parse_key_pair accepts exactly the byte strings that
start with the SECRET+ marker and whose base64 remainder decodes to exactly
96 bytes, split into the 64-byte secret key and the 32-byte public key; with
a different marker it returns the missing-marker error, and with undecodable
base64 or a payload of any other size it returns the invalid-data error.
Inputs shorter than seven bytes panic on the out-of-range slice, and inputs
whose byte index seven falls inside a multi-byte character panic on the
char-boundary check of the slice. Moreover, in this source snapshot the
file-based secret path of the store command truncates the file contents at
50 characters (not 135) with String::truncate, which itself panics when byte
index 50 falls inside a multi-byte character, and expects the legacy SECRET:
marker, so it rejects a file in the SECRET+ format of the spec. -/
theorem C8_parse_key_pair :
    (∀ s : List Nat, 7 ≤ s.length → isContByte (s.getD 7 0) = false →
      (s.take 7 ≠ ascii "SECRET+" →
        parse_key_pair s = some (Except.error Error.invalidSecretKeyMark))
      ∧ (∀ kp : KeyPair, parse_key_pair s = some (Except.ok kp) ↔
          s.take 7 = ascii "SECRET+"
          ∧ ∃ payload, decode_base64 (s.drop 7) = some payload ∧ payload.length = 96
              ∧ kp = ⟨payload.take 64, payload.drop 64⟩)
      ∧ (s.take 7 = ascii "SECRET+" →
          (∀ payload, decode_base64 (s.drop 7) = some payload → payload.length ≠ 96 →
            parse_key_pair s = some (Except.error Error.invalidSecretKeyData))
          ∧ (decode_base64 (s.drop 7) = none →
            parse_key_pair s = some (Except.error Error.invalidSecretKeyData))))
    ∧ (∀ s : List Nat, s.length < 7 → parse_key_pair s = none)
    ∧ (∀ s : List Nat, 7 ≤ s.length → isContByte (s.getD 7 0) = true →
        parse_key_pair s = none)
    ∧ (∀ c : List Nat, isContByte (c.getD 50 0) = true →
        store_secret_check none (some c) = none)
    ∧ (∀ c : List Nat, isContByte (c.getD 50 0) = false →
        store_secret_check none (some c) = store_secret_marker_check (c.take 50))
    ∧ store_secret_check none (some (ascii "SECRET+" ++ List.replicate 128 65))
        = some (Except.error Error.invalidSecretKeyData) := by
  refine ⟨?_, ?_, ?_, ?_, ?_, by decide⟩
  · intro s hs hb
    have hlen : ¬ s.length < 7 := by omega
    have hb' : ¬ isContByte (s.getD 7 0) = true := by simpa using hb
    refine ⟨?_, ?_, ?_⟩
    · intro hm
      rw [parse_key_pair, if_neg hlen, if_neg hb', if_neg hm]
    · intro kp
      constructor
      · intro h
        rw [parse_key_pair, if_neg hlen, if_neg hb'] at h
        by_cases hm : s.take 7 = ascii "SECRET+"
        · rw [if_pos hm] at h
          rcases hd : decode_base64 (s.drop 7) with _ | payload
          · rw [hd] at h
            simp at h
          · rw [hd] at h
            dsimp only at h
            by_cases hp : payload.length = 96
            · rw [if_neg (by simp [hp])] at h
              simp only [Option.some.injEq] at h
              have hkp : kp = ⟨payload.take 64, payload.drop 64⟩ := by
                cases h
                rfl
              exact ⟨hm, payload, rfl, hp, hkp⟩
            · rw [if_pos hp] at h
              simp at h
        · rw [if_neg hm] at h
          simp at h
      · rintro ⟨hm, payload, hd, hp, rfl⟩
        rw [parse_key_pair, if_neg hlen, if_neg hb', if_pos hm, hd]
        simp [hp]
    · intro hm
      constructor
      · intro payload hd hp
        rw [parse_key_pair, if_neg hlen, if_neg hb', if_pos hm, hd]
        simp [hp]
      · intro hd
        rw [parse_key_pair, if_neg hlen, if_neg hb', if_pos hm, hd]
  · intro s hs
    rw [parse_key_pair, if_pos hs]
  · intro s hs hb
    have hlen : ¬ s.length < 7 := by omega
    rw [parse_key_pair, if_neg hlen, if_pos hb]
  · intro c h
    show (if isContByte (c.getD 50 0) then none
          else store_secret_marker_check (c.take 50)) = none
    rw [if_pos h]
  · intro c h
    show (if isContByte (c.getD 50 0) then none
          else store_secret_marker_check (c.take 50))
        = store_secret_marker_check (c.take 50)
    rw [if_neg (by simpa using h)]

set_option maxRecDepth 100000 in
/-- Witness for C8: the characterization applied at a concrete well-formed
key-pair string, a concrete wrong-marker string, a string whose byte index
seven falls inside the two-byte encoding of a non-ASCII character (the UTF-8
bytes of SECRETex with an accented e, where byte seven is the continuation
byte 169), and file contents whose byte index 50 is a continuation byte. -/
theorem C8_witness :
    parse_key_pair (ascii "SECRET+" ++ encode_base64 (List.replicate 96 7))
      = some (Except.ok ⟨List.replicate 64 7, List.replicate 32 7⟩)
    ∧ parse_key_pair (ascii "public+aaaaaaaa") = some (Except.error Error.invalidSecretKeyMark)
    ∧ parse_key_pair (ascii "SECRET" ++ [195, 169, 120]) = none
    ∧ store_secret_check none (some (List.replicate 50 65 ++ [169])) = none := by
  refine ⟨?_, ?_, ?_, ?_⟩
  · exact ((C8_parse_key_pair.1 (ascii "SECRET+" ++ encode_base64 (List.replicate 96 7))
      (by decide) (by decide)).2.1 ⟨List.replicate 64 7, List.replicate 32 7⟩).mpr
      ⟨by decide, List.replicate 96 7, by decide, by decide, by decide⟩
  · exact (C8_parse_key_pair.1 (ascii "public+aaaaaaaa") (by decide) (by decide)).1 (by decide)
  · exact C8_parse_key_pair.2.2.1 (ascii "SECRET" ++ [195, 169, 120]) (by decide) (by decide)
  · exact C8_parse_key_pair.2.2.2.1 (List.replicate 50 65 ++ [169]) (by decide)

/-! ## Claim C4: splitting, decimal, and hex round-trip infrastructure -/

theorem splitByP_sep_free {p : Nat → Bool} : ∀ (xs : List Nat), (∀ b ∈ xs, p b = false) →
    splitByP p xs = [xs]
  | [], _ => rfl
  | b :: xs, h => by
    have hb : p b = false := h b (by simp)
    have ih := splitByP_sep_free xs (fun c hc => h c (by simp [hc]))
    rw [splitByP, ih, hb]
    simp

theorem splitByP_append {p : Nat → Bool} {c : Nat} (hc : p c = true) :
    ∀ (xs ys : List Nat), (∀ b ∈ xs, p b = false) →
    splitByP p (xs ++ c :: ys) = xs :: splitByP p ys
  | [], ys, _ => by simp [splitByP, hc]
  | b :: xs, ys, h => by
    have hb : p b = false := h b (by simp)
    have ih := splitByP_append hc xs ys (fun d hd => h d (by simp [hd]))
    rw [List.cons_append, splitByP, ih, hb]
    simp

theorem decDigitsAux_digits : ∀ (fuel n : Nat), n ≤ fuel → ∀ c ∈ decDigitsAux fuel n, 48 ≤ c ∧ c ≤ 57
  | 0, n, h, c, hc => by
    have hn : n = 0 := by omega
    subst hn
    simp [decDigitsAux] at hc
    omega
  | fuel + 1, n, h, c, hc => by
    rw [decDigitsAux] at hc
    split at hc
    · next hn =>
      simp at hc
      omega
    · next hn =>
      rcases List.mem_append.mp hc with hc | hc
      · exact decDigitsAux_digits fuel (n / 10) (by omega) c hc
      · simp at hc
        omega

theorem natFromDigits_append_one (ds : List Nat) (d : Nat) :
    natFromDigits (ds ++ [d]) = natFromDigits ds * 10 + (d - 48) := by
  simp [natFromDigits, List.foldl_append]

theorem decDigitsAux_value : ∀ (fuel n : Nat), n ≤ fuel → natFromDigits (decDigitsAux fuel n) = n
  | 0, n, h => by
    have hn : n = 0 := by omega
    subst hn
    simp [decDigitsAux, natFromDigits]
  | fuel + 1, n, h => by
    rw [decDigitsAux]
    split
    · next hn =>
      simp [natFromDigits]
    · next hn =>
      rw [natFromDigits_append_one, decDigitsAux_value fuel (n / 10) (by omega)]
      omega

theorem decDigitsAux_ne_nil : ∀ (fuel n : Nat), decDigitsAux fuel n ≠ []
  | 0, n => by simp [decDigitsAux]
  | fuel + 1, n => by
    rw [decDigitsAux]
    split
    · simp
    · simp

theorem decDigits_digits (n : Nat) : ∀ c ∈ decDigits n, 48 ≤ c ∧ c ≤ 57 :=
  decDigitsAux_digits n n (Nat.le_refl n)

theorem decDigits_value (n : Nat) : natFromDigits (decDigits n) = n :=
  decDigitsAux_value n n (Nat.le_refl n)

theorem decDigits_ne_nil (n : Nat) : decDigits n ≠ [] :=
  decDigitsAux_ne_nil n n

theorem parseU64_decDigits (n : Nat) (h : n < 2 ^ 64) : parseU64 (decDigits n) = some n := by
  have hdig := decDigits_digits n
  have hall : (decDigits n).all isDigit = true := by
    rw [List.all_eq_true]
    intro c hc
    have := hdig c hc
    simp only [isDigit, Bool.and_eq_true, decide_eq_true_eq]
    omega
  rcases hds : decDigits n with _ | ⟨b, rest⟩
  · exact absurd hds (decDigits_ne_nil n)
  · have hb : ¬ b = 43 := by
      have := hdig b (by rw [hds]; simp)
      omega
    rw [hds] at hall
    have hval : natFromDigits (b :: rest) = n := by rw [← hds, decDigits_value]
    simp [parseU64, hb, hall, hval, h]
    exact h

theorem hexDigit_mem : ∀ d < 16, hexDigit d ∈ HEX_CHARS := by decide

theorem hex_chars_class : ∀ c ∈ HEX_CHARS, c ≠ 32 ∧ c ≠ 10 := by decide

theorem parse_hexDigit : ∀ d < 16, parse_hex (hexDigit d) = some d := by decide

theorem append_hex_cons (b : Nat) (ds : List Nat) :
    append_hex (b :: ds) = hexDigit (b / 16) :: hexDigit (b % 16) :: append_hex ds := by
  simp [append_hex]

theorem append_hex_length : ∀ (ds : List Nat), (append_hex ds).length = 2 * ds.length
  | [] => rfl
  | b :: ds => by
    rw [append_hex_cons]
    simp [append_hex_length ds]
    omega

theorem append_hex_mem : ∀ (ds : List Nat), (∀ b ∈ ds, b < 256) →
    ∀ c ∈ append_hex ds, c ∈ HEX_CHARS
  | [], _, c, hc => by simp [append_hex] at hc
  | b :: ds, h, c, hc => by
    have hb : b < 256 := h b (by simp)
    rw [append_hex_cons] at hc
    rcases List.mem_cons.mp hc with rfl | hc
    · exact hexDigit_mem _ (by omega)
    rcases List.mem_cons.mp hc with rfl | hc
    · exact hexDigit_mem _ (by omega)
    · exact append_hex_mem ds (fun x hx => h x (by simp [hx])) c hc

theorem parseHexPairs_append_hex : ∀ (ds : List Nat), (∀ b ∈ ds, b < 256) →
    parseHexPairs (append_hex ds) = some ds
  | [], _ => rfl
  | b :: ds, h => by
    have hb : b < 256 := h b (by simp)
    have ih := parseHexPairs_append_hex ds (fun x hx => h x (by simp [hx]))
    rw [append_hex_cons]
    simp only [parseHexPairs]
    rw [parse_hexDigit (b / 16) (by omega), parse_hexDigit (b % 16) (by omega), ih]
    dsimp only
    have : b / 16 * 16 + b % 16 = b := by omega
    rw [this]

theorem b64char_memtable : ∀ i < 64, b64char i ∈ BASE64_CHARS := by decide

theorem b64_chars_no_nl : ∀ c ∈ BASE64_CHARS, c ≠ 10 ∧ c ≠ 32 := by decide

theorem append_base64_mem : ∀ (b : List Nat), (∀ x ∈ b, x < 256) →
    ∀ c ∈ append_base64 b, c ∈ BASE64_CHARS ∨ c = 61
  | [], _, c, hc => by simp [append_base64] at hc
  | [x1], h, c, hc => by
    have hx : x1 < 256 := h x1 (by simp)
    simp only [append_base64, List.mem_cons, List.not_mem_nil, or_false] at hc
    rcases hc with rfl | rfl | rfl | rfl
    · exact Or.inl (b64char_memtable _ (by omega))
    · exact Or.inl (b64char_memtable _ (by omega))
    · exact Or.inr rfl
    · exact Or.inr rfl
  | [x1, x2], h, c, hc => by
    have hx1 : x1 < 256 := h x1 (by simp)
    have hx2 : x2 < 256 := h x2 (by simp)
    simp only [append_base64, List.mem_cons, List.not_mem_nil, or_false] at hc
    rcases hc with rfl | rfl | rfl | rfl
    · exact Or.inl (b64char_memtable _ (by omega))
    · exact Or.inl (b64char_memtable _ (by omega))
    · exact Or.inl (b64char_memtable _ (by omega))
    · exact Or.inr rfl
  | x1 :: x2 :: x3 :: rest, h, c, hc => by
    have hx1 : x1 < 256 := h x1 (by simp)
    have hx2 : x2 < 256 := h x2 (by simp)
    have hx3 : x3 < 256 := h x3 (by simp)
    simp only [append_base64] at hc
    rcases List.mem_cons.mp hc with rfl | hc
    · exact Or.inl (b64char_memtable _ (by omega))
    rcases List.mem_cons.mp hc with rfl | hc
    · exact Or.inl (b64char_memtable _ (by omega))
    rcases List.mem_cons.mp hc with rfl | hc
    · exact Or.inl (b64char_memtable _ (by omega))
    rcases List.mem_cons.mp hc with rfl | hc
    · exact Or.inl (b64char_memtable _ (by omega))
    · exact append_base64_mem rest (fun x hx => h x (by simp [hx])) c hc

theorem append_base64_length : ∀ (b : List Nat), (append_base64 b).length = (b.length + 2) / 3 * 4
  | [] => rfl
  | [_] => by simp [append_base64]
  | [_, _] => by simp [append_base64]
  | _ :: _ :: _ :: rest => by
    simp only [append_base64, List.length_cons]
    rw [append_base64_length rest]
    omega

/-- Entry line as written by the serializer, without its trailing newline. -/
def entryCore (e : Entry) : List Nat :=
  e.version.string ++ [32] ++ decDigits e.len ++ [32] ++ append_hex e.digest

theorem entry_line_eq (e : Entry) : Entry.line e = entryCore e ++ [10] := by
  simp [Entry.line, entryCore]

theorem beq_false_of_ne {a b : Nat} (h : a ≠ b) : (a == b) = false := by
  simp [h]

theorem parse_entry_line (e : Entry)
    (hv : Version.new? e.version.string = some e.version)
    (hsp : (32 : Nat) ∉ e.version.string)
    (hlen : e.len < 2 ^ 64)
    (hdl : e.digest.length = 32) (hdb : ∀ b ∈ e.digest, b < 256) :
    parse_entry (entryCore e) = some (Except.ok e) := by
  have hvs : ∀ b ∈ e.version.string, (b == 32) = false := by
    intro b hb
    exact beq_false_of_ne (fun hx => hsp (hx ▸ hb))
  have hdec : ∀ b ∈ decDigits e.len, (b == 32) = false := by
    intro b hb
    have := decDigits_digits e.len b hb
    exact beq_false_of_ne (by omega)
  have hhex : ∀ b ∈ append_hex e.digest, (b == 32) = false := by
    intro b hb
    have := hex_chars_class b (append_hex_mem e.digest hdb b hb)
    exact beq_false_of_ne this.1
  have hshape : entryCore e
      = e.version.string ++ 32 :: (decDigits e.len ++ 32 :: append_hex e.digest) := by
    simp [entryCore]
  have hsplit : splitByP (· == 32) (entryCore e)
      = [e.version.string, decDigits e.len, append_hex e.digest] := by
    rw [hshape, splitByP_append (by simp) _ _ hvs, splitByP_append (by simp) _ _ hdec,
      splitByP_sep_free _ hhex]
  rw [parse_entry, hsplit]
  dsimp only
  rw [parseU64_decDigits e.len hlen]
  dsimp only
  rw [if_neg (by simp)]
  rw [if_neg (by rw [append_hex_length, hdl]; omega)]
  rw [parseHexPairs_append_hex e.digest hdb]
  dsimp only
  rw [hv]

theorem entryCore_no_nl (e : Entry) (hv : (10 : Nat) ∉ e.version.string)
    (hdb : ∀ b ∈ e.digest, b < 256) : ∀ b ∈ entryCore e, (b == 10) = false := by
  intro b hb
  simp only [entryCore, List.append_assoc, List.mem_append, List.mem_cons,
    List.not_mem_nil, or_false, List.mem_singleton] at hb
  rcases hb with hb | hb | hb | hb | hb
  · exact beq_false_of_ne (fun hx => hv (hx ▸ hb))
  · subst hb; decide
  · have := decDigits_digits e.len b hb
    exact beq_false_of_ne (by omega)
  · subst hb; decide
  · exact beq_false_of_ne (hex_chars_class b (append_hex_mem e.digest hdb b hb)).2

theorem header_no_nl : ∀ c ∈ ascii "Tako Manifest 1", (c == 10) = false := by decide

theorem splitByP_entry_lines : ∀ (es : List Entry) (ys : List Nat),
    (∀ e ∈ es, (10 : Nat) ∉ e.version.string ∧ ∀ b ∈ e.digest, b < 256) →
    splitByP (· == 10) ((es.map Entry.line).flatten ++ ys)
      = es.map entryCore ++ splitByP (· == 10) ys
  | [], ys, _ => by simp
  | e :: es, ys, h => by
    have he := h e (by simp)
    have hshape : (((e :: es).map Entry.line).flatten ++ ys)
        = entryCore e ++ 10 :: ((es.map Entry.line).flatten ++ ys) := by
      simp [entry_line_eq]
    rw [hshape, splitByP_append (by simp) _ _ (entryCore_no_nl e he.1 he.2),
      splitByP_entry_lines es ys (fun x hx => h x (by simp [hx]))]
    simp

theorem parseLoop_map (S : SigScheme) (bytes pk : List Nat) :
    ∀ (es : List Entry) (ls : List (List Nat)) (acc : List Entry),
    (∀ e ∈ es, parse_entry (entryCore e) = some (Except.ok e)) →
    Manifest.parseLoop S bytes pk (es.map entryCore ++ ls) acc
      = Manifest.parseLoop S bytes pk ls (acc ++ es)
  | [], ls, acc, _ => by simp
  | e :: es, ls, acc, h => by
    have hne : entryCore e ≠ [] := by
      intro hh
      rw [entryCore] at hh
      simp at hh
    rw [List.map_cons, List.cons_append, Manifest.parseLoop, if_neg hne, h e (by simp)]
    dsimp only
    rw [parseLoop_map S bytes pk es ls (acc ++ [e]) (fun x hx => h x (by simp [hx]))]
    simp

theorem splitByP_cons_sep {p : Nat → Bool} {c : Nat} (hc : p c = true) (ys : List Nat) :
    splitByP p (c :: ys) = [] :: splitByP p ys := by
  rw [splitByP, hc]
  simp

theorem serialize_split (S : SigScheme) (m : Manifest) (sk : List Nat)
    (hwf : ∀ e ∈ m.entries, (10 : Nat) ∉ e.version.string ∧ ∀ b ∈ e.digest, b < 256) :
    splitByP (· == 10) (Manifest.serialize S m sk)
      = ascii "Tako Manifest 1" :: [] :: (m.entries.map entryCore
          ++ [[], append_base64 (S.sign sk (serializeBody m)), []]) := by
  have hsig : ∀ c ∈ append_base64 (S.sign sk (serializeBody m)), (c == 10) = false := by
    intro c hc
    rcases append_base64_mem _ (S.sign_bytes sk (serializeBody m)) c hc with hmem | rfl
    · exact beq_false_of_ne (b64_chars_no_nl c hmem).1
    · decide
  have hshape : Manifest.serialize S m sk
      = ascii "Tako Manifest 1" ++ 10 :: (10 :: ((m.entries.map Entry.line).flatten
          ++ (10 :: (append_base64 (S.sign sk (serializeBody m)) ++ 10 :: [])))) := by
    simp [Manifest.serialize, serializeBody]
  rw [hshape, splitByP_append (by simp) _ _ header_no_nl, splitByP_cons_sep (by simp),
    splitByP_entry_lines m.entries _ hwf, splitByP_cons_sep (by simp),
    splitByP_append (by simp) _ _ hsig]
  rfl

set_option maxHeartbeats 1000000 in
/-- C4 (amended): serializing a manifest and parsing the result with the
paired public key returns the same manifest, provided every entry is
wire-well-formed: its version reparses to itself from its stored string,
the version string contains no space and no newline byte, the length fits in
64 bits, and the digest is 32 bytes (the latter two are invariants of the
Rust types u64 and [u8; 32]). -/
theorem C4_manifest_roundtrip (S : SigScheme) (m : Manifest) (sk pk : List Nat)
    (hpair : S.Paired sk pk)
    (_hsorted : entriesSorted m.entries)
    (hwf : ∀ e ∈ m.entries,
      Version.new? e.version.string = some e.version
      ∧ (32 : Nat) ∉ e.version.string ∧ (10 : Nat) ∉ e.version.string
      ∧ e.len < 2 ^ 64
      ∧ e.digest.length = 32 ∧ ∀ b ∈ e.digest, b < 256) :
    Manifest.parse S (Manifest.serialize S m sk) pk = some (Except.ok m) := by
  have hwf2 : ∀ e ∈ m.entries, (10 : Nat) ∉ e.version.string ∧ ∀ b ∈ e.digest, b < 256 :=
    fun e he => ⟨(hwf e he).2.2.1, (hwf e he).2.2.2.2.2⟩
  have hsplit := serialize_split S m sk hwf2
  have hdec : decode_base64 (append_base64 (S.sign sk (serializeBody m)))
      = some (S.sign sk (serializeBody m)) := by
    rw [decode_base64, if_neg (by simp [append_base64_length_mod]),
      decodeQuartets_append _ (S.sign_bytes sk (serializeBody m))]
  have hps : parse_signature (append_base64 (S.sign sk (serializeBody m)))
      = Except.ok (S.sign sk (serializeBody m)) := by
    rw [parse_signature, hdec]
    dsimp only
    rw [if_neg (by simp [S.sign_length])]
  have hl88 : (append_base64 (S.sign sk (serializeBody m))).length = 88 := by
    rw [append_base64_length, S.sign_length]
  have hmsg : (Manifest.serialize S m sk).take ((Manifest.serialize S m sk).length - 89)
      = serializeBody m := by
    have hre : Manifest.serialize S m sk
        = serializeBody m ++ (append_base64 (S.sign sk (serializeBody m)) ++ [10]) := by
      rw [Manifest.serialize, List.append_assoc]
    rw [hre]
    have hlen89 : (serializeBody m
        ++ (append_base64 (S.sign sk (serializeBody m)) ++ [10])).length - 89
        = (serializeBody m).length := by
      simp [hl88]
    rw [hlen89, List.take_left]
  rw [Manifest.parse, hsplit]
  dsimp only
  rw [show parse_header (ascii "Tako Manifest 1") = Except.ok 1 by rfl]
  dsimp only
  rw [if_neg (by simp)]
  rw [parseLoop_map S _ pk m.entries _ []
    (fun e he => parse_entry_line e (hwf e he).1 (hwf e he).2.1 (hwf e he).2.2.2.1
      (hwf e he).2.2.2.2.1 (hwf e he).2.2.2.2.2)]
  rw [List.nil_append, Manifest.parseLoop, if_pos rfl, Manifest.parseSigTail, hps]
  dsimp only
  rw [if_neg (by simp), if_neg (by simp), hmsg,
    S.verify_sign sk pk (serializeBody m) hpair]
  rfl

/-- Manifest whose entry version string contains a space; such a Version is
constructible in the source through Version::new (for example from the store
command line). -/
def badSpaceManifest : Manifest :=
  ⟨[⟨⟨ascii "1 2", [Part.str (ascii "1 2")]⟩, 5, List.replicate 32 0⟩]⟩

set_option maxRecDepth 100000 in
/-- C4 counterexample: the claim quantifies over every sorted manifest and
every paired key pair, but a sorted manifest whose entry version string
contains a space serializes to an entry line with four space-separated
fields, which the parser rejects, so parse of serialize returns an error
rather than the original manifest. -/
theorem C4_counterexample :
    entriesSorted badSpaceManifest.entries
    ∧ trustScheme.Paired [] []
    ∧ Manifest.parse trustScheme (Manifest.serialize trustScheme badSpaceManifest []) []
        = some (Except.error (Error.invalidManifest
            "Invalid manifest entry, unexpected space after digest."))
    ∧ Manifest.parse trustScheme (Manifest.serialize trustScheme badSpaceManifest []) []
        ≠ some (Except.ok badSpaceManifest) := by
  refine ⟨by decide, trivial, by decide, ?_⟩
  intro h
  rw [show Manifest.parse trustScheme (Manifest.serialize trustScheme badSpaceManifest []) []
      = some (Except.error (Error.invalidManifest
        "Invalid manifest entry, unexpected space after digest.")) by decide] at h
  simp at h

set_option maxRecDepth 100000 in
/-- Witness for C4: the round trip applied at a concrete one-entry manifest
under the trusting scheme. -/
theorem C4_witness :
    Manifest.parse trustScheme (Manifest.serialize trustScheme ⟨[exEntryA]⟩ []) []
      = some (Except.ok (⟨[exEntryA]⟩ : Manifest)) :=
  C4_manifest_roundtrip trustScheme ⟨[exEntryA]⟩ [] [] trivial
    (List.pairwise_singleton _ _) (by decide)

/-! ## Claim C1 -/

/-- C1: when a locally stored manifest exists and parses, the downloaded
remote manifest parses, and the local manifest is not a subset of the remote
one per the ordered subset predicate, fetch_manifest returns the
OperationError rejecting the remote manifest, and the locally stored
manifest file is left unchanged: store_local is never reached on this path,
so the second component (the stored file after the call) still holds the
local bytes. -/
theorem C1_fetch_manifest_rejects_nonsuperset (S : SigScheme)
    (pk local_bytes remote_bytes : List Nat) (mLocal mRemote : Manifest)
    (hl : Manifest.parse S local_bytes pk = some (Except.ok mLocal))
    (hr : Manifest.parse S remote_bytes pk = some (Except.ok mRemote))
    (hsub : mLocal.is_subset_of mRemote = false) :
    fetch_manifest S pk (some local_bytes) remote_bytes
      = some (Except.error (Error.operationError msgNotSuperset), some local_bytes) := by
  rw [fetch_manifest]
  rw [hl]
  dsimp only
  rw [hr]
  dsimp only
  rw [if_pos (by simp [hsub])]

/-- Entry with version 2.0.0 used in the concrete fetch scenario. -/
def exEntryC : Entry := ⟨⟨ascii "2.0.0", [Part.num 2, Part.num 0, Part.num 0]⟩, 17, List.replicate 32 0⟩

set_option maxRecDepth 1000000 in
/-- Witness for C1: a concrete local manifest with versions 1.0.0 and 2.0.0
against a remote manifest with only 1.0.0; the fetch is rejected and the
stored file still holds the local bytes. -/
theorem C1_witness :
    fetch_manifest trustScheme []
      (some (Manifest.serialize trustScheme ⟨[exEntryA, exEntryC]⟩ []))
      (Manifest.serialize trustScheme ⟨[exEntryA]⟩ [])
      = some (Except.error (Error.operationError msgNotSuperset),
          some (Manifest.serialize trustScheme ⟨[exEntryA, exEntryC]⟩ [])) :=
  C1_fetch_manifest_rejects_nonsuperset trustScheme []
    (Manifest.serialize trustScheme ⟨[exEntryA, exEntryC]⟩ [])
    (Manifest.serialize trustScheme ⟨[exEntryA]⟩ [])
    ⟨[exEntryA, exEntryC]⟩ ⟨[exEntryA]⟩ (by decide) (by decide) (by decide)

end Tako
